import Mathlib

/-!
Verification of the Algorithmic Layout Analyzer: a shallow embedding of
`header_extractor.py` (two-pass header classification) and
`layout_engine.py` (column split detection, header-band classification,
column assignment with three reconciliation passes, and section grouping),
together with proofs settling the frozen claims about the program.

Coordinates and font sizes are modelled as rationals; text as `String`.
-/

set_option allowUnsafeReducibility true in
attribute [semireducible] Rat.add Rat.sub Rat.mul Rat.div Rat.inv Rat.ofScientific

namespace ALA

/-! ## Text utilities (Python string operations used by the program) -/

/-- Python `s.strip()`: drop whitespace from both ends (structural version,
so that concrete instances evaluate). -/
def strTrim (s : String) : String :=
  String.mk (((s.toList.dropWhile Char.isWhitespace).reverse.dropWhile
      Char.isWhitespace).reverse)

/-- Python `s.lower()` for the ASCII texts the program handles. -/
def strLower (s : String) : String :=
  String.mk (s.toList.map Char.toLower)

/-- Number of maximal whitespace-free runs; `inWord` tracks whether the scan
is inside a word. -/
def countWordsGo : Bool → List Char → Nat
  | _, [] => 0
  | inWord, c :: t =>
    if c.isWhitespace then countWordsGo false t
    else (if inWord then 0 else 1) + countWordsGo true t

/-- Does `needle` occur at the start of `hay`? (character-list version) -/
def charsStarts : List Char → List Char → Bool
  | _, [] => true
  | [], _ :: _ => false
  | a :: as, b :: bs => a == b && charsStarts as bs

/-- Does `needle` occur anywhere inside `hay`? (character-list version) -/
def charsHasSub : List Char → List Char → Bool
  | [], needle => needle.isEmpty
  | a :: t, needle => charsStarts (a :: t) needle || charsHasSub t needle

/-- Python `needle in hay` on strings (substring containment). -/
def strHasSub (needle hay : String) : Bool :=
  charsHasSub hay.toList needle.toList

/-- Python `s.replace(" ", "")`: drop every space character. -/
def removeSpaces (s : String) : String :=
  String.mk (s.toList.filter (fun c => c ≠ ' '))

/-- Python `len(s.split())`: number of whitespace-separated words. -/
def wordCount (s : String) : Nat :=
  countWordsGo false s.toList

/-- Python `round(q, 1)`. The source rounds IEEE floats (round-half-even);
the model rounds rationals half-up. No claim depends on the half-way case. -/
def round1 (q : ℚ) : ℚ := (⌊q * 10 + 1/2⌋ : ℚ) / 10

/-- First occurrence of each distinct value, in order of first occurrence
(insertion order of `collections.Counter`). `seen` holds values found so far. -/
def firstUniques {α : Type} [DecidableEq α] : List α → List α → List α
  | _, [] => []
  | seen, a :: t =>
    if a ∈ seen then firstUniques seen t else a :: firstUniques (a :: seen) t

/-- `Counter(l).most_common(1)[0][0]`: the value with the highest count,
ties resolved to the earliest first occurrence (CPython's stable sort over
insertion-ordered counter items). `d` is returned for an empty list; every
call site of the program guards against the empty case. -/
def mostCommon {α : Type} [DecidableEq α] (d : α) (l : List α) : α :=
  match firstUniques [] l with
  | [] => d
  | c :: cs => cs.foldl (fun best c2 => if l.count c2 > l.count best then c2 else best) c

/-! ## Header extractor: data model (`_get_lines_with_style` output dicts) -/

/-- One styled line, as built by `HeaderExtractor._get_lines_with_style`:
raw text, normalized text, mean span size, bold-if-any-span-bold flag,
all-caps flag, bullet flag, top y, first span's font, enclosing block height. -/
structure Line where
  text : String
  clean : String
  size : ℚ
  is_bold : Bool
  is_upper : Bool
  is_bullet : Bool
  y : ℚ
  font : String
  block_height : ℚ
deriving DecidableEq, Repr

/-- `HEADER_PATTERNS` from `HeaderExtractor.__init__`. -/
def HEADER_PATTERNS : List String :=
  ["about me", "academic history", "achievements", "affiliations", "awards",
   "career objective", "certifications", "contact", "contact info", "core competencies",
   "courses", "education", "employment history", "experience", "hobbies", "interests",
   "languages", "licenses", "memberships", "objective", "professional associations",
   "professional experience", "professional summary", "projects", "publications",
   "qualifications", "references", "skills", "summary", "technical skills",
   "volunteer experience", "volunteering", "work experience"]

/-- The keys of `SPACELESS_HEADERS`: every pattern with its spaces removed. -/
def SPACELESS_KEYS : List String := HEADER_PATTERNS.map removeSpaces

/-- Exact keyword match: `clean in self.HEADER_PATTERNS`. -/
def exactKw (clean : String) : Bool := decide (clean ∈ HEADER_PATTERNS)

/-- Spaceless keyword match: `clean.replace(" ","") in self.SPACELESS_HEADERS`. -/
def spacelessKw (clean : String) : Bool := decide (removeSpaces clean ∈ SPACELESS_KEYS)

/-- Partial keyword match: `any(h in clean for h in self.HEADER_PATTERNS)`. -/
def substrKw (clean : String) : Bool := HEADER_PATTERNS.any (fun h => strHasSub h clean)

/-- Any of the three keyword relations of the scoring step. -/
def anyKw (clean : String) : Bool := exactKw clean || spacelessKw clean || substrKw clean

/-- Lines are kept sorted by ascending top-y (`lines.sort(key=lambda x: x["y"])`). -/
def sortLinesByY (l : List Line) : List Line :=
  List.insertionSort (fun a b => a.y ≤ b.y) l

/-- Style equality used by `_merge_split_headers`: size within 0.5, equal bold
and caps flags. -/
def sameStyle (c n : Line) : Bool :=
  decide (|c.size - n.size| < 1/2) && (c.is_bold == n.is_bold) && (c.is_upper == n.is_upper)

/-- The merged line produced by `_merge_split_headers` for a matching pair. -/
def mergeTwo (c n : Line) : Line :=
  { c with text := c.text ++ " " ++ n.text, clean := c.clean ++ " " ++ n.clean }

/-- `HeaderExtractor._merge_split_headers`: merge two adjacent same-style lines
whose combined normalized text matches a keyword (directly or spaceless);
non-recursive, advancing past both consumed lines. -/
def mergeSplitHeaders : List Line → List Line
  | [] => []
  | [l] => [l]
  | c :: n :: rest =>
    if sameStyle c n && (c.is_upper || c.is_bold) &&
       (decide ((c.clean ++ " " ++ n.clean) ∈ HEADER_PATTERNS) ||
        decide (removeSpaces (c.clean ++ " " ++ n.clean) ∈ SPACELESS_KEYS))
    then mergeTwo c n :: mergeSplitHeaders rest
    else c :: mergeSplitHeaders (n :: rest)

/-! ## Header extractor: the two-pass scoring loop (`HeaderExtractor.extract`) -/

/-- The style profile derived from the pass-1 candidates (the four
`target_*` variables of `extract`). -/
structure Profile where
  size : ℚ
  bold : Bool
  upper : Bool
  font : String
deriving DecidableEq, Repr

/-- The score computed for one line in the scan: exact or spaceless keyword
match +3, else substring match +1; +2 if size exceeds `body_size + 1`;
+1 if bold; +1 if all-caps. -/
def lineScore (body_size : ℚ) (l : Line) : Nat :=
  (if exactKw l.clean then 3 else if spacelessKw l.clean then 3
   else if substrKw l.clean then 1 else 0)
  + (if l.size > body_size + 1 then 2 else 0)
  + (if l.is_bold then 1 else 0)
  + (if l.is_upper then 1 else 0)

/-- `deriveProfile` models the four `Counter(...).most_common(1)[0][0]`
derivations run when pass 1 produced candidates. -/
def deriveProfile (detected : List Line) : Profile :=
  { size := mostCommon 0 (detected.map (fun h => round1 h.size))
  , bold := mostCommon false (detected.map Line.is_bold)
  , upper := mostCommon false (detected.map Line.is_upper)
  , font := mostCommon "" (detected.map Line.font) }

/-- The pass-2 confirmation test: all four profile attributes match (size
within 0.5 of the rounded target), or the spaceless keyword escape with a
matching size. -/
def finalMatch (p : Profile) (l : Line) : Bool :=
  (decide (|round1 l.size - p.size| ≤ 1/2) && (l.is_bold == p.bold) &&
     (l.is_upper == p.upper) && (l.font == p.font))
  || (spacelessKw l.clean && decide (|round1 l.size - p.size| ≤ 1/2))

/-- One iteration step of the `for line in all_lines` body of `extract`,
threading the `(detected_headers, final_headers)` state. With no profile
(`target_size is None`) the pass-1 logic runs, and lines with no keyword
relation are skipped entirely (`continue`); with a profile the pass-2
confirmation logic runs (the score is computed but unused there). -/
def passStep (body_size : ℚ) :
    Option Profile → List Line × List Line → Line → List Line × List Line
  | none, st, l =>
    if l.is_bullet then st
    else if wordCount l.clean > 10 then st
    else if !anyKw l.clean then st
    else if lineScore body_size l ≥ 3 ∧ l.text ∉ st.1.map Line.text then
      (st.1 ++ [l], st.2)
    else st
  | some p, st, l =>
    if l.is_bullet then st
    else if wordCount l.clean > 10 then st
    else if finalMatch p l = true ∧ l.text ∉ st.2.map Line.text then
      (st.1, st.2 ++ [l])
    else st

/-- One full scan over the merged line list (one iteration of `while True`). -/
def scanPass (lines : List Line) (body_size : ℚ) (tgt : Option Profile)
    (detected final : List Line) : List Line × List Line :=
  lines.foldl (passStep body_size tgt) (detected, final)

/-- The result triple of `HeaderExtractor.extract`. -/
structure ExtractResult where
  headers : List Line
  body_size : ℚ
  avg_height : ℚ
deriving DecidableEq, Repr

/-- Mean block height over a header list. -/
def avgBlockHeight (hs : List Line) : ℚ := (hs.map Line.block_height).sum / hs.length

/-- The `while True` loop of `extract`, bounded by fuel; `none` models an
execution that has not returned within `fuel` iterations. Each iteration
scans all lines, returns the confirmed headers if any, otherwise re-derives
the profile from the (unchanged) candidates and loops, and returns the empty
header list when there are no candidates at all. -/
def extractLoop (lines : List Line) (body_size : ℚ) :
    Nat → Option Profile → List Line → List Line → Option ExtractResult
  | 0, _, _, _ => none
  | fuel + 1, tgt, detected, final =>
    let st := scanPass lines body_size tgt detected final
    if st.2 ≠ [] then some ⟨st.2, body_size, avgBlockHeight st.2⟩
    else if st.1 ≠ [] then
      extractLoop lines body_size fuel (some (deriveProfile st.1)) st.1 st.2
    else some ⟨[], body_size, 0⟩

/-- `HeaderExtractor.extract` from an already-built line list: merge split
headers, compute `body_size` as the most common rounded size, then run the
two-pass loop. -/
def extractFromLines (fuel : Nat) (all0 : List Line) : Option ExtractResult :=
  let all_lines := mergeSplitHeaders all0
  if all_lines = [] then some ⟨[], 0, 0⟩
  else
    let body_size := mostCommon 0 (all_lines.map (fun l => round1 l.size))
    extractLoop all_lines body_size fuel none [] []

/-- `HeaderExtractor.extract` over a document: lines of every page are
collected (`for page in doc: all_lines.extend(...)`), each page's lines
sorted by y inside `_get_lines_with_style`. -/
def extractPages (fuel : Nat) (pages : List (List Line)) : Option ExtractResult :=
  extractFromLines fuel ((pages.map sortLinesByY).flatten)

/-! ## Layout engine: data model (`generate_layout_debug_pdf` block dicts) -/

/-- One text block of the page: bounding box `(x0, y0, x1, y1)`, concatenated
full text, and the sizes of all spans of all its lines (the only span
attribute the engine reads). -/
structure Block where
  x0 : ℚ
  y0 : ℚ
  x1 : ℚ
  y1 : ℚ
  full_text : String
  spanSizes : List ℚ
deriving DecidableEq, Repr

/-- `any(header["text"] in b["full_text"].strip() for header in headings)`. -/
def headingInBlock (headings : List String) (b : Block) : Bool :=
  headings.any (fun h => strHasSub h (strTrim b.full_text))

/-- `any(header["text"] == b["full_text"].strip() for header in headings)`
(the exact-equality form used by reconciliation pass B). -/
def headingEqBlock (headings : List String) (b : Block) : Bool :=
  headings.any (fun h => h = strTrim b.full_text)

/-- `any(header["text"].lower() in b["full_text"].strip().lower() ...)`
(the lowercased form used by `draw_section_boundaries`). -/
def headingInBlockLower (headings : List String) (b : Block) : Bool :=
  headings.any (fun h => strHasSub (strLower h) (strLower (strTrim b.full_text)))

/-- Blocks sorted by ascending top y (`text_blocks.sort(key=lambda b: b["bbox"][1])`). -/
def sortBlocksY (l : List Block) : List Block :=
  List.insertionSort (fun a b => a.y0 ≤ b.y0) l

/-! ## Layout engine: average header gap -/

/-- The `for i in range(1, len(text_blocks))` gap loop, walking consecutive
blocks starting from index 1: when block `i` contains a heading's text the
code reads `text_blocks[i+1]`; `none` models the `IndexError` raised when
that heading block is the last block. -/
def headerGapsFrom (headings : List String) : List Block → List ℚ → Option (List ℚ)
  | [], acc => some acc
  | [b], acc => if headingInBlock headings b then none else some acc
  | b :: b2 :: rest, acc =>
    if headingInBlock headings b then
      headerGapsFrom headings (b2 :: rest) (acc ++ [b2.y0 - b.y1])
    else headerGapsFrom headings (b2 :: rest) acc

/-- The collected header gaps (the loop starts at index 1, so the block at
index 0 is never tested). -/
def headerGaps (headings : List String) (tb : List Block) : Option (List ℚ) :=
  headerGapsFrom headings tb.tail []

/-- `sum(gaps)/len(gaps) if gaps else 0`. -/
def avgOf (l : List ℚ) : ℚ := if l = [] then 0 else l.sum / l.length

/-! ## Layout engine: column split detection -/

/-- The inner `for b2 in text_blocks[i+1:]` scan: break once `b2`'s top is at
or below `b1`'s bottom, skip narrow blocks, and report
`min(b1.top, b2.top)` at the first vertically overlapping, horizontally
separated pair. -/
def innerScan (minw : ℚ) (b1 : Block) : List Block → Option ℚ
  | [] => none
  | b2 :: rest =>
    if b2.y0 ≥ b1.y1 then none
    else if b2.x1 - b2.x0 < minw then innerScan minw b1 rest
    else if (b2.y0 < b1.y1 ∧ b2.y1 > b1.y0) ∧ (b1.x1 < b2.x0 ∨ b2.x1 < b1.x0) then
      some (min b1.y0 b2.y0)
    else innerScan minw b1 rest

/-- The outer `for i, b1 in enumerate(text_blocks)` scan of the split finder:
skip narrow `b1`, and stop entirely at the first inner-scan hit. -/
def findSplitY (minw : ℚ) : List Block → Option ℚ
  | [] => none
  | b1 :: rest =>
    if b1.x1 - b1.x0 < minw then findSplitY minw rest
    else
      match innerScan minw b1 rest with
      | some y => some y
      | none => findSplitY minw rest

/-- The inner scan as the spec describes the search: consider every later
block (no early break), skipping narrow ones, and report the first
vertically overlapping, horizontally separated partner. -/
def innerScanSpec (minw : ℚ) (b1 : Block) : List Block → Option ℚ
  | [] => none
  | b2 :: rest =>
    if b2.x1 - b2.x0 < minw then innerScanSpec minw b1 rest
    else if (b2.y0 < b1.y1 ∧ b2.y1 > b1.y0) ∧ (b1.x1 < b2.x0 ∨ b2.x1 < b1.x0) then
      some (min b1.y0 b2.y0)
    else innerScanSpec minw b1 rest

/-- The split search as the spec describes it: first qualifying ordered pair
in scan order, with no truncation of the inner scan. -/
def findSplitSpec (minw : ℚ) : List Block → Option ℚ
  | [] => none
  | b1 :: rest =>
    if b1.x1 - b1.x0 < minw then findSplitSpec minw rest
    else
      match innerScanSpec minw b1 rest with
      | some y => some y
      | none => findSplitSpec minw rest

/-- A qualifying pair for the split search: both blocks at least `minw` wide,
vertically overlapping, horizontally separated. -/
def splitPair (minw : ℚ) (b1 b2 : Block) : Prop :=
  ¬ b1.x1 - b1.x0 < minw ∧ ¬ b2.x1 - b2.x0 < minw ∧
  (b2.y0 < b1.y1 ∧ b2.y1 > b1.y0) ∧ (b1.x1 < b2.x0 ∨ b2.x1 < b1.x0)

/-! ## Layout engine: header-band classification -/

/-- `is_above_split`: fully above the threshold, or straddling it. -/
def aboveSplitB (thr : ℚ) (b : Block) : Bool :=
  decide (b.y1 ≤ thr) || (decide (b.y0 < thr) && decide (b.y1 > thr))

/-- The initial classification loop: above-split blocks containing a heading
text, following a body block (`text_blocks[i-1] in body_blocks`), or having
any span of size at most `body_size + 2` are body; other above-split blocks
are header-band; all below-split blocks are body. -/
def classifyIsBody (headings : List String) (bs thr : ℚ) (prev : Option Block)
    (bd : List Block) (b : Block) : Bool :=
  if aboveSplitB thr b then
    if headingInBlock headings b then true
    else if (match prev with | some p => decide (p ∈ bd) | none => false) then true
    else if b.spanSizes.any (fun s => decide (s ≤ bs + 2)) then true
    else false
  else true

def classifyGo (headings : List String) (bs thr : ℚ) :
    List Block → Option Block → List Block × List Block → List Block × List Block
  | [], _, acc => acc
  | b :: rest, prev, acc =>
    if classifyIsBody headings bs thr prev acc.2 b then
      classifyGo headings bs thr rest (some b) (acc.1, acc.2 ++ [b])
    else classifyGo headings bs thr rest (some b) (acc.1 ++ [b], acc.2)

/-- Header-band vs body classification of the y-sorted block list. -/
def classifyBlocks (headings : List String) (bs thr : ℚ) (tb : List Block) :
    List Block × List Block :=
  classifyGo headings bs thr tb none ([], [])

/-! ## Layout engine: column assignment and reconciliation -/

/-- `dynamic_center`: mean left edge over the body blocks. -/
def dynamicCenter (bd : List Block) : ℚ := (bd.map Block.x0).sum / bd.length

/-- The move loops shared by all three reconciliation passes:
`if b in src: src.remove(b)` then `dst.append(b)` (the append is
unconditional in the source). -/
def moveAll (toMove src dst : List Block) : List Block × List Block :=
  toMove.foldl
    (fun (p : List Block × List Block) b =>
      ((if b ∈ p.1 then p.1.erase b else p.1), p.2 ++ [b]))
    (src, dst)

/-- Pass A collection: walk the left column until the first block containing
a heading text; collect every block before that which is not above the
split threshold. -/
def collectA (headings : List String) (thr : ℚ) : List Block → List Block
  | [] => []
  | b :: rest =>
    if headingInBlock headings b then []
    else if aboveSplitB thr b then collectA headings thr rest
    else b :: collectA headings thr rest

/-- The governing-header test of pass B: the earlier block's bottom is above
the block's top, its left edge is at most 10 units right of the block's
left edge, and it sits at or right of `dynamic_center`. -/
def governs (c : ℚ) (hb b : Block) : Bool :=
  decide (hb.y1 < b.y0) && decide (hb.x0 ≤ b.x0 + 10) && decide (c ≤ hb.x0)

/-- Pass B collection: for every right-column block that is not itself a
heading (by exact text equality), search the earlier right-column blocks for
a governing heading; with none found, collect the block (once). `prev` is
the already-scanned prefix. -/
def collectBGo (headings : List String) (c : ℚ) :
    List Block → List Block → List Block → List Block
  | _, acc, [] => acc
  | prev, acc, b :: rest =>
    if headingEqBlock headings b then collectBGo headings c (prev ++ [b]) acc rest
    else if !(prev.any (fun hb => headingEqBlock headings hb && governs c hb b)) ∧ b ∉ acc
    then collectBGo headings c (prev ++ [b]) (acc ++ [b]) rest
    else collectBGo headings c (prev ++ [b]) acc rest

/-- Pass B collection over a right column. -/
def collectB (headings : List String) (c : ℚ) (rc : List Block) : List Block :=
  collectBGo headings c [] [] rc

/-- Pass C collection: scan consecutive pairs of the right column; a block
containing a heading text clears the `gap_found` flag and contributes
nothing; otherwise a gap to the next block of at least `thr` (with the flag
not yet set and the next block not a heading) sets the flag; while the flag
is set, the next block is collected. -/
def nextFlag (headings : List String) (thr : ℚ) (gf : Bool) (b b2 : Block) : Bool :=
  if b2.y0 - b.y1 ≥ thr ∧ gf = false ∧ ¬ headingInBlock headings b2 = true then true else gf

def collectC (headings : List String) (thr : ℚ) : Bool → List Block → List Block
  | _, [] => []
  | _, [_] => []
  | gf, b :: b2 :: rest =>
    if headingInBlock headings b then collectC headings thr false (b2 :: rest)
    else
      (if nextFlag headings thr gf b b2 then [b2] else []) ++
        collectC headings thr (nextFlag headings thr gf b b2) (b2 :: rest)

/-- Initial geometric split of the body blocks around `dynamic_center`,
each column then sorted by top y. -/
def initialSplit (c : ℚ) (bd : List Block) : List Block × List Block :=
  (sortBlocksY (bd.filter (fun b => decide (b.x0 < c))),
   sortBlocksY (bd.filter (fun b => !decide (b.x0 < c))))

/-- Reconciliation pass A (left to right), returning `(left, right)`. -/
def passA (headings : List String) (thr : ℚ) (lr : List Block × List Block) :
    List Block × List Block :=
  moveAll (collectA headings thr lr.1) lr.1 lr.2

/-- Reconciliation pass B (right to left) followed by the re-sort of both
columns, returning `(left, right)`. -/
def passB (headings : List String) (c : ℚ) (lr : List Block × List Block) :
    List Block × List Block :=
  (sortBlocksY (moveAll (collectB headings c lr.2) lr.2 lr.1).2,
   sortBlocksY (moveAll (collectB headings c lr.2) lr.2 lr.1).1)

/-- Reconciliation pass C (gap-based), run only when the average header block
height and the average header gap are both positive, returning `(left, right)`. -/
def passC (headings : List String) (avgGap avgHdrH : ℚ)
    (lr : List Block × List Block) : List Block × List Block :=
  if 0 < avgHdrH ∧ 0 < avgGap then
    ((moveAll (collectC headings (avgGap + avgHdrH + 5) false lr.2) lr.2 lr.1).2,
     (moveAll (collectC headings (avgGap + avgHdrH + 5) false lr.2) lr.2 lr.1).1)
  else lr

/-- The full column assignment over the body blocks (`if body_blocks:` guard
included: with no body blocks both columns stay empty). -/
def assignColumns (headings : List String) (thr avgGap avgHdrH : ℚ)
    (bd : List Block) : List Block × List Block :=
  if bd = [] then ([], [])
  else
    passC headings avgGap avgHdrH
      (passB headings (dynamicCenter bd)
        (passA headings thr (initialSplit (dynamicCenter bd) bd)))

/-! ## Layout engine: whole-page analysis -/

/-- The structured outcome of `generate_layout_debug_pdf`: early return with
no text, the single-column path, or the two-column classification. -/
inductive LayoutOutcome
  | noText
  | singleColumn (body : List Block)
  | twoColumn (headerBand leftCol rightCol : List Block)
deriving DecidableEq, Repr

/-- The analysis path of `generate_layout_debug_pdf` on the first page's
blocks: sort by y, collect header gaps (`none` models the uncaught
`IndexError` there), find the column split (minimum column width is 5% of
the page width), then either mark everything as body or classify the header
band and assign columns. -/
def analyzeLayout (headings : List String) (bs avgHdrH pageWidth : ℚ)
    (raw : List Block) : Option LayoutOutcome :=
  if raw = [] then some .noText
  else
    let tb := sortBlocksY raw
    (headerGaps headings tb).bind (fun gaps =>
      let avgGap := avgOf gaps
      match findSplitY (pageWidth * (5 / 100)) tb with
      | none => some (.singleColumn tb)
      | some sy =>
        let thr := sy - 5
        let cl := classifyBlocks headings bs thr tb
        let lr := assignColumns headings thr avgGap avgHdrH cl.2
        some (.twoColumn cl.1 lr.1 lr.2))

/-- The analysis over a document: `page = doc[0]` works on the first page. -/
def layoutFirstPage (headings : List String) (bs avgHdrH pageWidth : ℚ)
    (pages : List (List Block)) : Option LayoutOutcome :=
  analyzeLayout headings bs avgHdrH pageWidth (pages.headD [])

/-! ## Section grouper (`draw_section_boundaries`) -/

/-- An axis-aligned rectangle. -/
structure Rect where
  x0 : ℚ
  y0 : ℚ
  x1 : ℚ
  y1 : ℚ
deriving DecidableEq, Repr

/-- The bounding box of a block as a rectangle. -/
def bboxOf (b : Block) : Rect := ⟨b.x0, b.y0, b.x1, b.y1⟩

/-- `fitz.Rect.__or__`: smallest rectangle containing both. -/
def rUnion (a b : Rect) : Rect :=
  ⟨min a.x0 b.x0, min a.y0 b.y0, max a.x1 b.x1, max a.y1 b.y1⟩

/-- `union_rect += (1,1,1,1)` in PyMuPDF adds componentwise: all four
coordinates grow by 1, translating the rectangle without growing it. -/
def rShiftOne (r : Rect) : Rect := ⟨r.x0 + 1, r.y0 + 1, r.x1 + 1, r.y1 + 1⟩

/-- The rectangle drawn for a non-final section group: starting from the
first member's box, union in each later member's box and then apply the
`+= (1,1,1,1)` translation, once per later member. -/
def sectionRectMid (r0 : Rect) (rest : List Rect) : Rect :=
  rest.foldl (fun acc r => rShiftOne (rUnion acc r)) r0

/-- The rectangle drawn for the final section group after the loop: the
plain union of the members' boxes, with no adjustment. -/
def sectionRectLast (r0 : Rect) (rest : List Rect) : Rect :=
  rest.foldl rUnion r0

/-- The grouping loop of `draw_section_boundaries`: a block containing a
heading text (lowercased comparison) closes the running group, drawing its
rectangle, and starts a new group; other blocks join the running group; the
final group is drawn with the plain-union rectangle. -/
def drawnGo (headings : List String) (cur : List Block) (acc : List Rect) :
    List Block → List Rect
  | [] =>
    match cur with
    | [] => acc
    | c :: cs => acc ++ [sectionRectLast (bboxOf c) (cs.map bboxOf)]
  | b :: rest =>
    if headingInBlockLower headings b then
      match cur with
      | [] => drawnGo headings [b] acc rest
      | c :: cs => drawnGo headings [b] (acc ++ [sectionRectMid (bboxOf c) (cs.map bboxOf)]) rest
    else drawnGo headings (cur ++ [b]) acc rest

/-- All section rectangles drawn for one column's block list. -/
def drawSectionRects (headings : List String) (blocks : List Block) : List Rect :=
  if blocks = [] then [] else drawnGo headings [] [] blocks

/-! ## Concrete instances used to settle the claims -/

/-- A plain body line (size 10, no style, no keyword relation). -/
def bodyLine (yv : ℚ) : Line :=
  ⟨"hello there", "hello there", 10, false, false, false, yv, "Arial", 12⟩

/-- Pass-1 candidate: substring keyword, prominent, bold (score 4). -/
def C1A : Line := ⟨"Experience One", "experience one", 14, true, false, false, 10, "F1", 12⟩

/-- Pass-1 candidate: substring keyword, prominent, all-caps (score 4). -/
def C1B : Line := ⟨"Experience Two", "experience two", 12, false, true, false, 50, "F1", 12⟩

/-- Pass-1 candidate: substring keyword, prominent, bold, all-caps (score 5). -/
def C1C : Line := ⟨"Experience Three", "experience three", 12, true, true, false, 90, "F2", 12⟩

/-- A page whose three pass-1 candidates majority-vote a style profile
(size 12, bold, caps, font F1) that none of them — and no other line —
matches, so pass 2 confirms nothing while candidates exist. -/
def C1doc : List Line :=
  [C1A, bodyLine 20, bodyLine 30, bodyLine 40, C1B, bodyLine 60, bodyLine 70,
   bodyLine 80, C1C, bodyLine 100]

/-- The pass-1 candidate list found on `C1doc`. -/
def C1D : List Line := [C1A, C1B, C1C]

/-- The majority-voted profile of `C1D`. -/
def C1P : Profile := ⟨12, true, true, "F1"⟩

/-- A line with no keyword relation at all, but prominent, bold and
all-caps (score 4 by the claimed formula). -/
def C2L : Line := ⟨"ZZZZ", "zzzz", 12, true, true, false, 60, "F1", 12⟩

/-- Five body lines (fixing `body_size = 10`) followed by `C2L`. -/
def C2lines : List Line :=
  [bodyLine 10, bodyLine 20, bodyLine 30, bodyLine 40, bodyLine 50, C2L]

/-- An ordinary first block. -/
def C3b1 : Block := ⟨0, 0, 100, 10, "intro text", [10]⟩

/-- A block containing the heading text "skills", last in y-order. -/
def C3b2 : Block := ⟨0, 20, 100, 30, "skills", [10]⟩

/-- An above-split block with a small span (size 9) and a large span
(size 20), no heading text. -/
def C5b : Block := ⟨0, 0, 50, 20, "John Doe", [9, 20]⟩

/-- Left block of the two-column witness page (x in [0, 250]). -/
def C6b1 : Block := ⟨0, 0, 250, 50, "left col", [10]⟩

/-- Right block of the two-column witness page (x in [300, 550]). -/
def C6b2 : Block := ⟨300, 0, 550, 50, "right col", [10]⟩

/-- A heading block whose left edge sits at or right of the dynamic center
but 150 units left of `C7b`'s left edge. -/
def C7h : Block := ⟨50, 0, 120, 10, "skills", [10]⟩

/-- A non-heading right-column block below `C7h`. -/
def C7b : Block := ⟨200, 30, 300, 60, "stuff here", [10]⟩

/-- First right-column block of the pass-C scenario. -/
def C8b0 : Block := ⟨0, 0, 50, 10, "aaa", [10]⟩

/-- Block 25 units below `C8b0` (the qualifying gap that sets the flag). -/
def C8b1 : Block := ⟨0, 35, 50, 45, "bbb", [10]⟩

/-- A heading block scanned after the flag is set (it clears the flag). -/
def C8h : Block := ⟨0, 50, 50, 60, "skills", [10]⟩

/-- A block after the heading: subsequent to the gap, yet never moved. -/
def C8b3 : Block := ⟨0, 62, 50, 70, "ccc", [10]⟩

/-- A first section heading block. -/
def C9h1 : Block := ⟨0, 0, 10, 10, "skills", [10]⟩

/-- A body block of the first section. -/
def C9a : Block := ⟨0, 20, 10, 30, "aaa", [10]⟩

/-- A second section heading block (closes the first section). -/
def C9h2 : Block := ⟨0, 40, 10, 50, "education", [10]⟩

/-- First page: three size-10 lines, no keyword relations. -/
def C10p1 : List Line := [bodyLine 10, bodyLine 20, bodyLine 30]

/-- A size-14 line with no keyword relation. -/
def bigLine (yv : ℚ) : Line :=
  ⟨"other words", "other words", 14, false, false, false, yv, "Arial", 12⟩

/-- Second page: five size-14 lines, enough to flip the majority size. -/
def C10p2 : List Line := [bigLine 10, bigLine 20, bigLine 30, bigLine 40, bigLine 50]

/-! ## Helper lemmas: the extractor loop -/

theorem extractLoop_succ (lines : List Line) (bs : ℚ) (n : Nat) (tgt : Option Profile)
    (detected final : List Line) (st : List Line × List Line)
    (hst : scanPass lines bs tgt detected final = st) :
    extractLoop lines bs (n + 1) tgt detected final =
      if st.2 ≠ [] then some ⟨st.2, bs, avgBlockHeight st.2⟩
      else if st.1 ≠ [] then extractLoop lines bs n (some (deriveProfile st.1)) st.1 st.2
      else some ⟨[], bs, 0⟩ := by
  subst hst; rfl

theorem extractLoop_fixpoint (lines : List Line) (bs : ℚ) (p : Profile) (d : List Line)
    (hne : d ≠ []) (hscan : scanPass lines bs (some p) d [] = (d, []))
    (hp : deriveProfile d = p) :
    ∀ n, extractLoop lines bs n (some p) d [] = none := by
  intro n
  induction n with
  | zero => rfl
  | succ k ih =>
    rw [extractLoop_succ lines bs k (some p) d [] (d, []) hscan]
    simp [hne, hp, ih]

/-- Claim C1: the claimed behavior is that header extraction always
terminates after one bootstrap pass, one profile derivation and one
confirmation pass, falling back to the pass-1 candidates when confirmation
is empty. The code instead loops forever on `C1doc`: pass 1 finds three
candidates, pass 2 confirms none of them, and the loop re-derives the same
profile and rescans indefinitely — no amount of fuel makes it return. -/
theorem C1_extract_diverges (fuel : Nat) : extractPages fuel [C1doc] = none := by
  have h1 : (([C1doc].map sortLinesByY).flatten) = C1doc := by decide
  have h2 : mergeSplitHeaders C1doc = C1doc := by decide
  have h4 : mostCommon 0 (C1doc.map (fun l => round1 l.size)) = 10 := by decide
  unfold extractPages extractFromLines
  rw [h1, h2, if_neg (by decide : ¬ (C1doc = [])), h4]
  cases fuel with
  | zero => rfl
  | succ n =>
    have hscan : scanPass C1doc 10 none [] [] = (C1D, []) := by decide
    rw [extractLoop_succ C1doc 10 n none [] [] (C1D, []) hscan]
    have hdp : deriveProfile C1D = C1P := by decide
    have hd : C1D ≠ [] := by decide
    simp only [hd, hdp, Prod.fst, Prod.snd, ne_eq, not_true_eq_false, if_false,
      not_false_eq_true, if_true]
    exact extractLoop_fixpoint C1doc 10 C1P C1D (by decide) (by decide) (by decide) n

/-! ## Helper lemmas: pass-1 candidate collection -/

theorem passStep_none_cases (bs : ℚ) (st : List Line × List Line) (l : Line) :
    (passStep bs none st l).1 = st.1 ∨ (passStep bs none st l).1 = st.1 ++ [l] := by
  simp only [passStep]
  split
  · exact Or.inl rfl
  split
  · exact Or.inl rfl
  split
  · exact Or.inl rfl
  split
  · exact Or.inr rfl
  · exact Or.inl rfl

theorem scanFold_none_text_mono (bs : ℚ) (lines : List Line) (st : List Line × List Line)
    (t : String) (h : t ∈ st.1.map Line.text) :
    t ∈ (lines.foldl (passStep bs none) st).1.map Line.text := by
  induction lines generalizing st with
  | nil => exact h
  | cons x rest ih =>
    rw [List.foldl_cons]
    apply ih
    rcases passStep_none_cases bs st x with hc | hc
    · rw [hc]; exact h
    · rw [hc, List.map_append]; exact List.mem_append_left _ h

theorem scanFold_none_detects (bs : ℚ) (lines : List Line) (l : Line)
    (hmem : l ∈ lines) (hb : l.is_bullet = false) (hw : ¬ wordCount l.clean > 10)
    (hkw : anyKw l.clean = true) (hsc : lineScore bs l ≥ 3) :
    ∀ st : List Line × List Line,
      l.text ∈ (lines.foldl (passStep bs none) st).1.map Line.text := by
  induction lines with
  | nil => cases hmem
  | cons x rest ih =>
    intro st
    rw [List.foldl_cons]
    rcases List.mem_cons.mp hmem with hx | hx
    · subst hx
      apply scanFold_none_text_mono
      by_cases hin : l.text ∈ st.1.map Line.text
      · rcases passStep_none_cases bs st l with hc | hc
        · rw [hc]; exact hin
        · rw [hc, List.map_append]; exact List.mem_append_left _ hin
      · have hstep : passStep bs none st l = (st.1 ++ [l], st.2) := by
          simp only [passStep]
          rw [if_neg (by simp [hb]), if_neg hw, if_neg (by simp [hkw]),
            if_pos ⟨hsc, hin⟩]
        rw [hstep, List.map_append]
        exact List.mem_append_right _ (by simp)
    · exact ih hx (passStep bs none st x)

/-- Claim C2 (counterexample): the claim says a line matching no keyword at
all still becomes a pass-1 candidate when prominence, bold and all-caps
alone reach score 3. On `C2lines` (body size 10) the line `C2L` is
non-bullet, one word, matches no keyword, and scores 4 from prominence,
bold and caps — yet pass 1 produces no candidate at all: the code skips
keyword-free lines. -/
theorem C2_keyword_free_line_skipped :
    anyKw C2L.clean = false ∧ C2L.is_bullet = false ∧ wordCount C2L.clean ≤ 10 ∧
    mostCommon 0 (C2lines.map (fun l => round1 l.size)) = 10 ∧
    ((if C2L.size > 10 + 1 then 2 else 0) + (if C2L.is_bold then 1 else 0) +
      (if C2L.is_upper then 1 else 0) ≥ 3) ∧
    C2L ∈ C2lines ∧
    (scanPass C2lines 10 none [] []).1 = [] := by
  refine ⟨by decide, by decide, by decide, by decide, by decide, by decide, by decide⟩

/-- Claim C2 (amended): in pass 1 every non-bullet line with at most 10
words whose normalized text has some keyword relation (exact, spaceless or
substring) and whose total score reaches 3 contributes a candidate with its
raw text (first occurrence per distinct text); keyword-free lines are
skipped regardless of prominence. -/
theorem C2_pass1_candidates (lines : List Line) (bs : ℚ) (l : Line)
    (hmem : l ∈ lines) (hb : l.is_bullet = false) (hw : wordCount l.clean ≤ 10)
    (hkw : anyKw l.clean = true) (hsc : lineScore bs l ≥ 3) :
    l.text ∈ (scanPass lines bs none [] []).1.map Line.text :=
  scanFold_none_detects bs lines l hmem hb (by omega) hkw hsc ([], [])

/-- Witness for C2_pass1_candidates: the line "EXPERIENCE" (exact keyword,
size 14 against body size 10, bold, caps) is detected. -/
theorem C2_pass1_candidates_witness :
    C1A ∈ C1doc ∧
    "Experience One" ∈ (scanPass C1doc 10 none [] []).1.map Line.text :=
  ⟨by decide, C2_pass1_candidates C1doc 10 C1A (by decide) (by decide) (by decide)
      (by decide) (by decide)⟩

/-- Claim C3: the claim says layout analysis never goes out of bounds, in
particular in the average-header-gap scan. When the block whose text
contains a header's text is the last block in y-order (`C3b2` here), the
scan reads `text_blocks[i+1]` past the end: the model returns `none`
(the uncaught `IndexError` of the source). -/
theorem C3_gap_scan_out_of_bounds :
    headingInBlock ["skills"] C3b2 = true ∧
    (sortBlocksY [C3b1, C3b2]).getLast? = some C3b2 ∧
    headerGaps ["skills"] (sortBlocksY [C3b1, C3b2]) = none ∧
    analyzeLayout ["skills"] 10 0 600 [C3b1, C3b2] = none := by
  refine ⟨by decide, by decide, by decide, by decide⟩

/-! ## Helper lemmas: header-band classification -/

theorem lastOr_def (prev : Option Block) (l : List Block) :
    (match l.getLast? with
      | some p => some p
      | none => prev) =
      if l = [] then prev else l.getLast? := by
  cases l with
  | nil => rfl
  | cons a t =>
    have h : (a :: t).getLast? = some ((a :: t).getLast (by simp)) := List.getLast?_eq_getLast _ _
    simp [h]

theorem classifyGo_append_single (headings : List String) (bs thr : ℚ) (b : Block) :
    ∀ (l : List Block) (prev : Option Block) (acc : List Block × List Block),
      classifyGo headings bs thr (l ++ [b]) prev acc =
        classifyGo headings bs thr [b]
          (match l.getLast? with | some p => some p | none => prev)
          (classifyGo headings bs thr l prev acc) := by
  intro l
  induction l with
  | nil => intro prev acc; rfl
  | cons a t ih =>
    intro prev acc
    have h1 : (match (a :: t).getLast? with | some p => some p | none => prev) =
        (match t.getLast? with | some p => some p | none => some a) := by
      cases t with
      | nil => rfl
      | cons x xs =>
        rw [List.getLast?_cons_cons]
        have hg : (x :: xs).getLast? = some ((x :: xs).getLast (by simp)) :=
          List.getLast?_eq_getLast _ _
        rw [hg]
    simp only [List.cons_append, classifyGo]
    rw [h1]
    split
    · exact ih (some a) (acc.1, acc.2 ++ [a])
    · exact ih (some a) (acc.1 ++ [a], acc.2)

/-- Claim C5 (counterexample): `C5b` is above the split, contains no heading
text, has no preceding block, and has a 20pt span (so not every span is at
most `body_size + 2 = 12`); the claim requires header-band classification,
but the code classifies it as body because one span (9pt) is small. -/
theorem C5_any_vs_every_counterexample :
    aboveSplitB 100 C5b = true ∧
    headingInBlock ["skills"] C5b = false ∧
    ¬(∀ s ∈ C5b.spanSizes, s ≤ 10 + 2) ∧
    classifyBlocks ["skills"] 10 100 [C5b] = ([], [C5b]) := by
  refine ⟨by decide, by decide, by decide, by decide⟩

/-- Claim C5 (amended): an above-split block with no heading text whose
immediately preceding block was not classified body is classified as body
if and only if SOME span of the block has size at most `body_size + 2`;
otherwise it joins the header band. -/
theorem C5_above_split_smallfont (headings : List String) (bs thr : ℚ)
    (l : List Block) (b : Block)
    (ha : aboveSplitB thr b = true)
    (hh : headingInBlock headings b = false)
    (hp : ∀ p, l.getLast? = some p → p ∉ (classifyBlocks headings bs thr l).2) :
    classifyBlocks headings bs thr (l ++ [b]) =
      (if b.spanSizes.any (fun s => decide (s ≤ bs + 2)) then
        ((classifyBlocks headings bs thr l).1, (classifyBlocks headings bs thr l).2 ++ [b])
      else
        ((classifyBlocks headings bs thr l).1 ++ [b], (classifyBlocks headings bs thr l).2)) := by
  unfold classifyBlocks
  rw [classifyGo_append_single]
  have hprev : (match (match l.getLast? with | some p => some p | none => (none : Option Block)) with
      | some p => decide (p ∈ (classifyGo headings bs thr l none ([], [])).2)
      | none => false) = false := by
    cases hgl : l.getLast? with
    | none => simp
    | some p =>
      have := hp p hgl
      unfold classifyBlocks at this
      simp [this]
  simp only [classifyGo, classifyIsBody, ha, hh, hprev]
  split
  · simp_all
  · simp_all

/-- Witness for C5_above_split_smallfont: the lone block `C5b` (no
predecessor, above split, no heading text) lands in the body list because
its 9pt span is small. -/
theorem C5_above_split_smallfont_witness :
    aboveSplitB 100 C5b = true ∧ headingInBlock ["skills"] C5b = false ∧
    classifyBlocks ["skills"] 10 100 ([] ++ [C5b]) =
      (if C5b.spanSizes.any (fun s => decide (s ≤ 10 + 2)) then
        ((classifyBlocks ["skills"] 10 100 []).1,
         (classifyBlocks ["skills"] 10 100 []).2 ++ [C5b])
      else
        ((classifyBlocks ["skills"] 10 100 []).1 ++ [C5b],
         (classifyBlocks ["skills"] 10 100 []).2)) :=
  ⟨by decide, by decide,
   C5_above_split_smallfont ["skills"] 10 100 [] C5b (by decide) (by decide) (by simp)⟩

/-! ## Helper lemmas: the move loops and pass B -/

theorem moveAll_cons (t : Block) (ts src dst : List Block) :
    moveAll (t :: ts) src dst =
      moveAll ts (if t ∈ src then src.erase t else src) (dst ++ [t]) := rfl

theorem moveAll_dst_sub (toMove : List Block) :
    ∀ src dst, dst ⊆ (moveAll toMove src dst).2 := by
  induction toMove with
  | nil => intro src dst; exact fun x hx => hx
  | cons t ts ih =>
    intro src dst
    rw [moveAll_cons]
    exact fun x hx => ih _ _ (List.mem_append_left _ hx)

theorem moveAll_mem_dst (toMove : List Block) :
    ∀ src dst b, b ∈ toMove → b ∈ (moveAll toMove src dst).2 := by
  induction toMove with
  | nil => intro _ _ _ h; cases h
  | cons t ts ih =>
    intro src dst b hb
    rw [moveAll_cons]
    rcases List.mem_cons.mp hb with rfl | hb2
    · exact moveAll_dst_sub ts _ _ (List.mem_append_right _ (by simp))
    · exact ih _ _ _ hb2

theorem collectBGo_sub_result (headings : List String) (c : ℚ) :
    ∀ (l prev acc : List Block), acc ⊆ collectBGo headings c prev acc l := by
  intro l
  induction l with
  | nil => intro prev acc; exact fun x hx => hx
  | cons b rest ih =>
    intro prev acc
    simp only [collectBGo]
    split
    · exact ih _ _
    split
    · exact fun x hx => ih (prev ++ [b]) (acc ++ [b]) (List.mem_append_left _ hx)
    · exact ih _ _

theorem collectBGo_mem (headings : List String) (c : ℚ) (b : Block)
    (hnh : headingEqBlock headings b = false) :
    ∀ (pre post prev acc : List Block),
      (∀ hb ∈ prev ++ pre, ¬(headingEqBlock headings hb = true ∧ governs c hb b = true)) →
      b ∈ collectBGo headings c prev acc (pre ++ b :: post) := by
  intro pre
  induction pre with
  | nil =>
    intro post prev acc hng
    simp only [List.nil_append, collectBGo, hnh, Bool.false_eq_true, if_false]
    have hfound : (prev.any (fun hb => headingEqBlock headings hb && governs c hb b)) = false := by
      rw [List.any_eq_false]
      intro hb hhb
      have h2 := hng hb (by simpa using hhb)
      cases ha : headingEqBlock headings hb <;> cases hg : governs c hb b <;> simp_all
    rw [hfound]
    by_cases hacc : b ∈ acc
    · rw [if_neg (by simp [hacc])]
      exact collectBGo_sub_result headings c _ _ _ hacc
    · rw [if_pos (by simp [hacc])]
      exact collectBGo_sub_result headings c _ _ _ (List.mem_append_right _ (by simp))
  | cons p pre ih =>
    intro post prev acc hng
    have hng2 : ∀ hb ∈ (prev ++ [p]) ++ pre,
        ¬(headingEqBlock headings hb = true ∧ governs c hb b = true) := by
      intro hb hhb; exact hng hb (by simpa [List.append_assoc] using hhb)
    simp only [List.cons_append, collectBGo]
    split
    · exact ih post (prev ++ [p]) acc hng2
    split
    · exact ih post (prev ++ [p]) (acc ++ [p]) hng2
    · exact ih post (prev ++ [p]) acc hng2

/-! ## Helper lemmas: the column split detector -/

theorem innerScanSpec_none_iff (minw : ℚ) (b1 : Block) :
    ∀ l, innerScanSpec minw b1 l = none ↔
      ∀ b2 ∈ l, ¬(¬(b2.x1 - b2.x0 < minw) ∧ (b2.y0 < b1.y1 ∧ b2.y1 > b1.y0) ∧
                  (b1.x1 < b2.x0 ∨ b2.x1 < b1.x0)) := by
  intro l
  induction l with
  | nil => simp [innerScanSpec]
  | cons b2 rest ih =>
    simp only [innerScanSpec, List.mem_cons]
    split
    · rename_i hnarrow
      rw [ih]
      constructor
      · intro h x hx
        rcases hx with rfl | hx2
        · exact fun hc => hc.1 hnarrow
        · exact h x hx2
      · intro h x hx
        exact h x (Or.inr hx)
    · rename_i hnarrow
      split
      · rename_i hq
        apply iff_of_false (by simp)
        intro h
        exact h b2 (Or.inl rfl) ⟨hnarrow, hq.1, hq.2⟩
      · rename_i hq
        rw [ih]
        constructor
        · intro h x hx
          rcases hx with rfl | hx2
          · exact fun hc => hq ⟨hc.2.1, hc.2.2⟩
          · exact h x hx2
        · intro h x hx
          exact h x (Or.inr hx)

theorem innerScanSpec_some (minw : ℚ) (b1 : Block) :
    ∀ l y, innerScanSpec minw b1 l = some y →
      ∃ b2 ∈ l, ¬(b2.x1 - b2.x0 < minw) ∧ (b2.y0 < b1.y1 ∧ b2.y1 > b1.y0) ∧
        (b1.x1 < b2.x0 ∨ b2.x1 < b1.x0) ∧ y = min b1.y0 b2.y0 := by
  intro l
  induction l with
  | nil => intro y h; cases h
  | cons b2 rest ih =>
    intro y h
    simp only [innerScanSpec] at h
    split at h
    · obtain ⟨x, hx, hprop⟩ := ih y h
      exact ⟨x, by simp [hx], hprop⟩
    · rename_i hnarrow
      split at h
      · rename_i hq
        injection h with h
        exact ⟨b2, by simp, hnarrow, hq.1, hq.2, h.symm⟩
      · obtain ⟨x, hx, hprop⟩ := ih y h
        exact ⟨x, by simp [hx], hprop⟩

theorem innerScanSpec_all_high (minw : ℚ) (b1 : Block) :
    ∀ l, (∀ x ∈ l, ¬(x.y0 < b1.y1)) → innerScanSpec minw b1 l = none := by
  intro l
  induction l with
  | nil => intro _; rfl
  | cons b2 rest ih =>
    intro h
    have hb2 := h b2 (by simp)
    have hrest : ∀ x ∈ rest, ¬(x.y0 < b1.y1) := fun x hx => h x (by simp [hx])
    simp only [innerScanSpec]
    split
    · exact ih hrest
    · rw [if_neg (fun hc => hb2 hc.1.1)]
      exact ih hrest

theorem innerScan_eq_spec (minw : ℚ) (b1 : Block) :
    ∀ l, l.Pairwise (fun a b => a.y0 ≤ b.y0) →
      innerScan minw b1 l = innerScanSpec minw b1 l := by
  intro l
  induction l with
  | nil => intro _; rfl
  | cons b2 rest ih =>
    intro hp
    have hle := (List.pairwise_cons.mp hp).1
    have hrest := (List.pairwise_cons.mp hp).2
    simp only [innerScan]
    split
    · rename_i hge
      have hrestHigh : ∀ x ∈ rest, ¬(x.y0 < b1.y1) := by
        intro x hx hlt
        exact absurd (lt_of_le_of_lt (hle x hx) hlt) (not_lt.mpr hge)
      have hb2High : ¬(b2.y0 < b1.y1) := not_lt.mpr hge
      symm
      simp only [innerScanSpec]
      split
      · exact innerScanSpec_all_high minw b1 rest hrestHigh
      · rw [if_neg (fun hq => hb2High hq.1.1)]
        exact innerScanSpec_all_high minw b1 rest hrestHigh
    · simp only [innerScanSpec]
      split
      · exact ih hrest
      · split
        · rfl
        · exact ih hrest

theorem findSplitY_eq_spec (minw : ℚ) :
    ∀ tb, tb.Pairwise (fun a b => a.y0 ≤ b.y0) →
      findSplitY minw tb = findSplitSpec minw tb := by
  intro tb
  induction tb with
  | nil => intro _; rfl
  | cons b1 rest ih =>
    intro hp
    have hrest := (List.pairwise_cons.mp hp).2
    simp only [findSplitY, findSplitSpec]
    split
    · exact ih hrest
    · rw [innerScan_eq_spec minw b1 rest hrest]
      cases innerScanSpec minw b1 rest with
      | some y => rfl
      | none => exact ih hrest

theorem findSplitSpec_none_iff (minw : ℚ) :
    ∀ tb, findSplitSpec minw tb = none ↔
      ∀ b1 b2 : Block, [b1, b2].Sublist tb → ¬ splitPair minw b1 b2 := by
  intro tb
  induction tb with
  | nil =>
    constructor
    · intro _ b1 b2 h
      rw [List.sublist_nil] at h
      cases h
    · intro _; rfl
  | cons x l ih =>
    simp only [findSplitSpec]
    split
    · rename_i hnarrow
      rw [ih]
      constructor
      · intro h b1 b2 hsub
        cases hsub with
        | cons _ h2 => exact h b1 b2 h2
        | cons₂ _ h2 => exact fun hsp => hsp.1 hnarrow
      · intro h b1 b2 hsub
        exact h b1 b2 (hsub.cons x)
    · rename_i hnarrow
      cases hscan : innerScanSpec minw x l with
      | some y =>
        obtain ⟨b2, hb2mem, hq1, hq2, hq3, _⟩ := innerScanSpec_some minw x l y hscan
        apply iff_of_false (by simp)
        intro h
        exact h x b2 (List.Sublist.cons₂ x (List.singleton_sublist.mpr hb2mem))
          ⟨hnarrow, hq1, hq2, hq3⟩
      | none =>
        show findSplitSpec minw l = none ↔ _
        rw [ih]
        have hinner := (innerScanSpec_none_iff minw x l).mp hscan
        constructor
        · intro h b1 b2 hsub
          cases hsub with
          | cons _ h2 => exact h b1 b2 h2
          | cons₂ _ h2 =>
            intro hsp
            exact hinner b2 (List.singleton_sublist.mp h2) ⟨hsp.2.1, hsp.2.2⟩
        · intro h b1 b2 hsub
          exact h b1 b2 (hsub.cons x)

theorem findSplitSpec_some (minw : ℚ) :
    ∀ tb y, findSplitSpec minw tb = some y →
      ∃ b1 b2, [b1, b2].Sublist tb ∧ splitPair minw b1 b2 ∧ y = min b1.y0 b2.y0 := by
  intro tb
  induction tb with
  | nil => intro y h; cases h
  | cons x l ih =>
    intro y h
    simp only [findSplitSpec] at h
    split at h
    · obtain ⟨b1, b2, hsub, hsp, hy⟩ := ih y h
      exact ⟨b1, b2, hsub.cons x, hsp, hy⟩
    · rename_i hnarrow
      cases hscan : innerScanSpec minw x l with
      | some z =>
        rw [hscan] at h
        have h2 : some z = some y := h
        have hz : z = y := by injection h2
        subst hz
        obtain ⟨b2, hb2mem, hq1, hq2, hq3, hmin⟩ := innerScanSpec_some minw x l z hscan
        exact ⟨x, b2, List.Sublist.cons₂ x (List.singleton_sublist.mpr hb2mem),
          ⟨hnarrow, hq1, hq2, hq3⟩, hmin⟩
      | none =>
        rw [hscan] at h
        have h2 : findSplitSpec minw l = some y := h
        obtain ⟨b1, b2, hsub, hsp, hy⟩ := ih y h2
        exact ⟨b1, b2, hsub.cons x, hsp, hy⟩

/-- The property claimed of the split detector: the truncated scan equals
the untruncated first-pair search; no split is reported exactly when no
ordered pair of wide blocks overlaps vertically while being horizontally
separated; and a reported split is the minimum top of such a pair. -/
def splitDetectorSpec (minw : ℚ) (tb : List Block) : Prop :=
  findSplitY minw tb = findSplitSpec minw tb ∧
  (findSplitY minw tb = none ↔
    ∀ b1 b2 : Block, [b1, b2].Sublist tb → ¬ splitPair minw b1 b2) ∧
  (∀ y, findSplitY minw tb = some y →
    ∃ b1 b2, [b1, b2].Sublist tb ∧ splitPair minw b1 b2 ∧ y = min b1.y0 b2.y0)

/-- Claim C6: on a block list sorted by ascending top y, the split detector
(with its early inner-scan break) returns exactly what the spec's
first-pair search returns: the minimum of the tops of the first vertically
overlapping, horizontally separated pair of sufficiently wide blocks, and
nothing when no such pair exists. -/
theorem C6_split_detector (minw : ℚ) (tb : List Block)
    (hsorted : tb.Pairwise (fun a b => a.y0 ≤ b.y0)) :
    splitDetectorSpec minw tb := by
  have he := findSplitY_eq_spec minw tb hsorted
  refine ⟨he, ?_, ?_⟩
  · rw [he]; exact findSplitSpec_none_iff minw tb
  · intro y hy; rw [he] at hy; exact findSplitSpec_some minw tb y hy

/-- Witness for C6_split_detector: two same-width blocks at the same
y-range with disjoint x-ranges on a 600-wide page (min width 30). -/
theorem C6_split_detector_witness :
    ([C6b1, C6b2] : List Block).Pairwise (fun a b => a.y0 ≤ b.y0) ∧
    splitDetectorSpec 30 [C6b1, C6b2] :=
  ⟨by decide, C6_split_detector 30 [C6b1, C6b2] (by decide)⟩

/-- Claim C7 (counterexample): block `C7b` is not a heading and the only
earlier right-column heading `C7h` is 150 units left of `C7b`'s left edge —
not within 10 units, so under the claim's reading `C7b` has no governing
header and must move left. The code's one-sided test
`header.x0 <= block.x0 + 10` accepts `C7h`, and pass B moves nothing. -/
theorem C7_one_sided_alignment_counterexample :
    headingEqBlock ["skills"] C7b = false ∧
    headingEqBlock ["skills"] C7h = true ∧
    C7h.y1 < C7b.y0 ∧ (40 : ℚ) ≤ C7h.x0 ∧ ¬(|C7h.x0 - C7b.x0| ≤ 10) ∧
    (passB ["skills"] 40 ([], [C7h, C7b])).1 = [] := by
  refine ⟨by decide, by decide, by decide, by decide, by decide, by decide⟩

/-- Claim C7 (amended): a right-column block that is not itself a header and
has no earlier right-column header with bottom above its top, left edge at
most 10 units to the right of its own left edge (the header may lie
arbitrarily further left), and left edge at or right of `dynamic_center`,
is moved to the left column. -/
theorem C7_passB_reconciliation (headings : List String) (c : ℚ)
    (lc pre post : List Block) (b : Block)
    (hnh : headingEqBlock headings b = false)
    (hng : ∀ hb ∈ pre, ¬(headingEqBlock headings hb = true ∧ governs c hb b = true)) :
    b ∈ (passB headings c (lc, pre ++ b :: post)).1 := by
  have hmemB : b ∈ collectB headings c (pre ++ b :: post) :=
    collectBGo_mem headings c b hnh pre post [] [] (by simpa using hng)
  have hmv : b ∈ (moveAll (collectB headings c (pre ++ b :: post)) (pre ++ b :: post) lc).2 :=
    moveAll_mem_dst _ _ _ _ hmemB
  show b ∈ sortBlocksY _
  unfold sortBlocksY
  rw [(List.perm_insertionSort _ _).mem_iff]
  exact hmv

/-- Witness for C7_passB_reconciliation: a lone non-heading right-column
block with no header above it at all is moved to the left column. -/
theorem C7_passB_reconciliation_witness :
    C7b ∈ (passB ["skills"] 40 ([], [C7b])).1 :=
  C7_passB_reconciliation ["skills"] 40 [] [] [] C7b (by decide) (by simp)

/-! ## Helper lemmas: column-partition invariants (claim C4) -/

theorem classifyGo_perm (headings : List String) (bs thr : ℚ) :
    ∀ (l : List Block) (prev : Option Block) (acc : List Block × List Block),
      ((classifyGo headings bs thr l prev acc).1 ++
        (classifyGo headings bs thr l prev acc).2).Perm (acc.1 ++ acc.2 ++ l) := by
  intro l
  induction l with
  | nil => intro prev acc; simp [classifyGo]
  | cons b rest ih =>
    intro prev acc
    simp only [classifyGo]
    split
    · refine (ih (some b) (acc.1, acc.2 ++ [b])).trans ?_
      have he : (acc.1, acc.2 ++ [b]).1 ++ (acc.1, acc.2 ++ [b]).2 ++ rest =
          acc.1 ++ acc.2 ++ (b :: rest) := by simp
      rw [he]
    · refine (ih (some b) (acc.1 ++ [b], acc.2)).trans ?_
      have he : (acc.1 ++ [b], acc.2).1 ++ (acc.1 ++ [b], acc.2).2 ++ rest =
          acc.1 ++ (b :: (acc.2 ++ rest)) := by simp
      have he2 : acc.1 ++ acc.2 ++ (b :: rest) = acc.1 ++ (acc.2 ++ (b :: rest)) := by
        simp [List.append_assoc]
      rw [he, he2]
      exact List.Perm.append_left acc.1 List.perm_middle.symm

theorem moveAll_perm (toMove : List Block) :
    ∀ src dst, toMove.Subperm src →
      ((moveAll toMove src dst).1 ++ (moveAll toMove src dst).2).Perm (src ++ dst) := by
  induction toMove with
  | nil => intro src dst _; exact List.Perm.refl _
  | cons t ts ih =>
    intro src dst hsub
    have ht : t ∈ src := hsub.subset (by simp)
    rw [moveAll_cons, if_pos ht]
    have hts : ts.Subperm (src.erase t) := by
      have h2 := hsub.erase t
      simpa [List.erase_cons_head] using h2
    refine (ih (src.erase t) (dst ++ [t]) hts).trans ?_
    have he : src.erase t ++ (dst ++ [t]) = (src.erase t ++ dst) ++ [t] := by
      simp [List.append_assoc]
    rw [he]
    refine (List.perm_append_singleton t _).trans ?_
    have he2 : t :: (src.erase t ++ dst) = (t :: src.erase t) ++ dst := rfl
    rw [he2]
    exact List.Perm.append_right dst (List.perm_cons_erase ht).symm

theorem collectA_sublist (headings : List String) (thr : ℚ) :
    ∀ l, (collectA headings thr l).Sublist l := by
  intro l
  induction l with
  | nil => simp [collectA]
  | cons b rest ih =>
    simp only [collectA]
    split
    · exact List.nil_sublist _
    split
    · exact ih.cons b
    · exact ih.cons₂ b

theorem collectBGo_nodup (headings : List String) (c : ℚ) :
    ∀ l prev acc, acc.Nodup → (collectBGo headings c prev acc l).Nodup := by
  intro l
  induction l with
  | nil => intro prev acc h; exact h
  | cons b rest ih =>
    intro prev acc h
    simp only [collectBGo]
    split
    · exact ih _ _ h
    split
    · rename_i hcond
      refine ih _ _ ?_
      rw [List.nodup_append]
      refine ⟨h, List.nodup_singleton b, ?_⟩
      intro x hx hxb
      rw [List.mem_singleton] at hxb
      subst hxb
      exact hcond.2 hx
    · exact ih _ _ h

theorem collectBGo_subset (headings : List String) (c : ℚ) :
    ∀ l prev acc, (collectBGo headings c prev acc l) ⊆ acc ++ l := by
  intro l
  induction l with
  | nil => intro prev acc; simp [collectBGo]
  | cons b rest ih =>
    intro prev acc
    simp only [collectBGo]
    split
    · intro x hx
      have h2 := ih (prev ++ [b]) acc hx
      simp only [List.mem_append, List.mem_cons] at h2 ⊢
      tauto
    split
    · intro x hx
      have h2 := ih (prev ++ [b]) (acc ++ [b]) hx
      simp only [List.mem_append, List.mem_cons, List.mem_singleton] at h2 ⊢
      tauto
    · intro x hx
      have h2 := ih (prev ++ [b]) acc hx
      simp only [List.mem_append, List.mem_cons] at h2 ⊢
      tauto

theorem collectB_subperm (headings : List String) (c : ℚ) (rc : List Block) :
    (collectB headings c rc).Subperm rc := by
  apply List.Nodup.subperm
  · exact collectBGo_nodup headings c rc [] [] List.nodup_nil
  · intro x hx
    have h2 := collectBGo_subset headings c rc [] [] hx
    simpa using h2

theorem collectC_sublist (headings : List String) (thr : ℚ) :
    ∀ (l : List Block) (gf : Bool), (collectC headings thr gf l).Sublist l.tail := by
  intro l
  induction l with
  | nil => intro gf; simp [collectC]
  | cons b t ih =>
    intro gf
    cases t with
    | nil => simp [collectC]
    | cons b2 rest =>
      show (collectC headings thr gf (b :: b2 :: rest)).Sublist (b2 :: rest)
      simp only [collectC]
      split
      · exact (ih false).cons b2
      · split
        · exact (ih _).cons₂ b2
        · exact (ih _).cons b2

/-- The left/right lists `s` are disjoint and together hold exactly the
body blocks `bd`. -/
def lrPartition (bd : List Block) (s : List Block × List Block) : Prop :=
  s.1.Disjoint s.2 ∧ ∀ b : Block, (b ∈ s.1 ∨ b ∈ s.2) ↔ b ∈ bd

/-- The partition invariant claimed for every stage of column assignment,
plus the page-wide header-band/left/right trichotomy after the final stage. -/
def columnStagesPartition (headings : List String) (bs thr avgGap avgHdrH : ℚ)
    (tb : List Block) : Prop :=
  lrPartition (classifyBlocks headings bs thr tb).2
    (initialSplit (dynamicCenter (classifyBlocks headings bs thr tb).2)
      (classifyBlocks headings bs thr tb).2) ∧
  lrPartition (classifyBlocks headings bs thr tb).2
    (passA headings thr
      (initialSplit (dynamicCenter (classifyBlocks headings bs thr tb).2)
        (classifyBlocks headings bs thr tb).2)) ∧
  lrPartition (classifyBlocks headings bs thr tb).2
    (passB headings (dynamicCenter (classifyBlocks headings bs thr tb).2)
      (passA headings thr
        (initialSplit (dynamicCenter (classifyBlocks headings bs thr tb).2)
          (classifyBlocks headings bs thr tb).2))) ∧
  lrPartition (classifyBlocks headings bs thr tb).2
    (passC headings avgGap avgHdrH
      (passB headings (dynamicCenter (classifyBlocks headings bs thr tb).2)
        (passA headings thr
          (initialSplit (dynamicCenter (classifyBlocks headings bs thr tb).2)
            (classifyBlocks headings bs thr tb).2)))) ∧
  (∀ b ∈ tb,
    let cl := classifyBlocks headings bs thr tb
    let s4 := passC headings avgGap avgHdrH
      (passB headings (dynamicCenter cl.2)
        (passA headings thr (initialSplit (dynamicCenter cl.2) cl.2)))
    (b ∈ cl.1 ∧ b ∉ s4.1 ∧ b ∉ s4.2) ∨ (b ∉ cl.1 ∧ b ∈ s4.1 ∧ b ∉ s4.2) ∨
    (b ∉ cl.1 ∧ b ∉ s4.1 ∧ b ∈ s4.2))

/-- Claim C4: on a page of pairwise-distinct blocks, after every stage of
column assignment (initial split, reconciliation passes A, B, C) the
left and right columns are disjoint and their union is exactly the
body-classified block set, and every page block lies in exactly one of
header-band, left column, right column. -/
theorem C4_columns_partition (headings : List String) (bs thr avgGap avgHdrH : ℚ)
    (tb : List Block) (hnd : tb.Nodup) :
    columnStagesPartition headings bs thr avgGap avgHdrH tb := by
  have pc : ((classifyBlocks headings bs thr tb).1 ++
      (classifyBlocks headings bs thr tb).2).Perm tb := by
    have h := classifyGo_perm headings bs thr tb none ([], [])
    simpa [classifyBlocks] using h
  set cl := classifyBlocks headings bs thr tb with hcl
  have hndApp : (cl.1 ++ cl.2).Nodup := pc.nodup_iff.mpr hnd
  have hndBd : cl.2.Nodup := (List.nodup_append.mp hndApp).2.1
  have hdisjHdBd : cl.1.Disjoint cl.2 := (List.nodup_append.mp hndApp).2.2
  set c := dynamicCenter cl.2 with hc
  have p1 : ((initialSplit c cl.2).1 ++ (initialSplit c cl.2).2).Perm cl.2 := by
    unfold initialSplit sortBlocksY
    refine ((List.perm_insertionSort _ _).append (List.perm_insertionSort _ _)).trans ?_
    exact List.filter_append_perm _ _
  set s1 := initialSplit c cl.2 with hs1
  have p2 : ((passA headings thr s1).1 ++ (passA headings thr s1).2).Perm (s1.1 ++ s1.2) := by
    unfold passA
    exact moveAll_perm _ _ _ (collectA_sublist headings thr s1.1).subperm
  set s2 := passA headings thr s1 with hs2
  have p3 : ((passB headings c s2).1 ++ (passB headings c s2).2).Perm (s2.1 ++ s2.2) := by
    unfold passB sortBlocksY
    refine ((List.perm_insertionSort _ _).append (List.perm_insertionSort _ _)).trans ?_
    refine List.perm_append_comm.trans ?_
    refine (moveAll_perm _ _ _ (collectB_subperm headings c s2.2)).trans ?_
    exact List.perm_append_comm
  set s3 := passB headings c s2 with hs3
  have p4 : ((passC headings avgGap avgHdrH s3).1 ++
      (passC headings avgGap avgHdrH s3).2).Perm (s3.1 ++ s3.2) := by
    unfold passC
    split
    · refine List.perm_append_comm.trans ?_
      refine (moveAll_perm _ _ _
        ((collectC_sublist headings _ s3.2 false).trans (List.tail_sublist _)).subperm).trans ?_
      exact List.perm_append_comm
    · exact List.Perm.refl _
  set s4 := passC headings avgGap avgHdrH s3 with hs4
  have q1 : (s1.1 ++ s1.2).Perm cl.2 := p1
  have q2 : (s2.1 ++ s2.2).Perm cl.2 := p2.trans q1
  have q3 : (s3.1 ++ s3.2).Perm cl.2 := p3.trans q2
  have q4 : (s4.1 ++ s4.2).Perm cl.2 := p4.trans q3
  have part : ∀ s : List Block × List Block, (s.1 ++ s.2).Perm cl.2 → lrPartition cl.2 s := by
    intro s hperm
    constructor
    · have hn : (s.1 ++ s.2).Nodup := hperm.nodup_iff.mpr hndBd
      exact (List.nodup_append.mp hn).2.2
    · intro b
      rw [← List.mem_append]
      exact hperm.mem_iff
  have hpart4 := part s4 q4
  refine ⟨part s1 q1, part s2 q2, part s3 q3, hpart4, ?_⟩
  intro b hb
  have hbcl : b ∈ cl.1 ∨ b ∈ cl.2 := by
    have h2 : b ∈ cl.1 ++ cl.2 := pc.mem_iff.mpr hb
    simpa using h2
  rcases hbcl with h1 | h2
  · left
    refine ⟨h1, ?_, ?_⟩
    · intro hcont; exact hdisjHdBd h1 ((hpart4.2 b).mp (Or.inl hcont))
    · intro hcont; exact hdisjHdBd h1 ((hpart4.2 b).mp (Or.inr hcont))
  · rcases (hpart4.2 b).mpr h2 with h3 | h4
    · exact Or.inr (Or.inl ⟨fun hcont => hdisjHdBd hcont h2, h3, fun hcont => hpart4.1 h3 hcont⟩)
    · exact Or.inr (Or.inr ⟨fun hcont => hdisjHdBd hcont h2, fun hcont => hpart4.1 hcont h4, h4⟩)

/-- Witness for C4_columns_partition: the two-column page `[C6b1, C6b2]`. -/
theorem C4_columns_partition_witness :
    ([C6b1, C6b2] : List Block).Nodup ∧
    columnStagesPartition ["skills"] 10 (-5) 0 0 [C6b1, C6b2] :=
  ⟨by decide, C4_columns_partition ["skills"] 10 (-5) 0 0 [C6b1, C6b2] (by decide)⟩

/-- Claim C8 (counterexample): the qualifying gap after `C8b0` sets the flag
(`C8b1` and the heading `C8h` are moved), but scanning `C8h` clears the
flag, so the subsequent block `C8b3` is NOT moved to the left column —
against the claim that the flag is never cleared and every subsequent
block moves. -/
theorem C8_flag_cleared_counterexample :
    C8b1.y0 - C8b0.y1 ≥ 10 + 10 + 5 ∧
    headingInBlock ["skills"] C8h = true ∧
    passC ["skills"] 10 10 ([], [C8b0, C8b1, C8h, C8b3]) = ([C8b1, C8h], [C8b0, C8b3]) ∧
    C8b3 ∉ ([C8b1, C8h] : List Block) := by
  refine ⟨by decide, by decide, by decide, by decide⟩

/-- Claim C8 (amended): the pass-C flag latches only until the next
header-containing block: (a) scanning a header clears the flag whatever its
previous value and contributes no move; (b) with the flag set and no
header among the remaining blocks, every subsequent block is collected for
moving; (c) after a clear, a later qualifying gap sets the flag again. -/
theorem C8_gap_flag_cleared_by_headers :
    (∀ (headings : List String) (thr : ℚ) (b : Block) (l : List Block) (gf : Bool),
        headingInBlock headings b = true →
        collectC headings thr gf (b :: l) = collectC headings thr false l) ∧
    (∀ (headings : List String) (thr : ℚ) (l : List Block),
        (∀ x ∈ l, headingInBlock headings x = false) →
        collectC headings thr true l = l.tail) ∧
    (∀ (headings : List String) (thr : ℚ) (b b2 : Block) (rest : List Block),
        headingInBlock headings b = false → headingInBlock headings b2 = false →
        b2.y0 - b.y1 ≥ thr →
        collectC headings thr false (b :: b2 :: rest) =
          b2 :: collectC headings thr true (b2 :: rest)) := by
  refine ⟨?_, ?_, ?_⟩
  · intro headings thr b l gf hb
    cases l with
    | nil => rfl
    | cons b2 rest => simp [collectC, hb]
  · intro headings thr l
    induction l with
    | nil => intro _; rfl
    | cons b t ih =>
      intro hx
      cases t with
      | nil => rfl
      | cons b2 rest =>
        have hb := hx b (by simp)
        have ht : ∀ x ∈ b2 :: rest, headingInBlock headings x = false := by
          intro x hmem; exact hx x (by simp [hmem])
        have hstep : collectC headings thr true (b :: b2 :: rest) =
            [b2] ++ collectC headings thr true (b2 :: rest) := by
          simp [collectC, nextFlag, hb]
        rw [hstep, ih ht]
        simp
  · intro headings thr b b2 rest hb hb2 hgap
    simp [collectC, nextFlag, hb, hb2, hgap]

/-- Witness for C8_gap_flag_cleared_by_headers: concrete instances of the
three behaviors (clear at header, latch with no headers, re-set after a
qualifying gap). -/
theorem C8_gap_flag_cleared_by_headers_witness :
    collectC ["skills"] 25 true [C8h, C8b3] = collectC ["skills"] 25 false [C8b3] ∧
    collectC ["skills"] 25 true [C8b0, C8b1] = [C8b0, C8b1].tail ∧
    collectC ["skills"] 25 false [C8b0, C8b1] = C8b1 :: collectC ["skills"] 25 true [C8b1] :=
  ⟨C8_gap_flag_cleared_by_headers.1 ["skills"] 25 C8h [C8b3] true (by decide),
   C8_gap_flag_cleared_by_headers.2.1 ["skills"] 25 [C8b0, C8b1] (by decide),
   C8_gap_flag_cleared_by_headers.2.2 ["skills"] 25 C8b0 C8b1 [] (by decide) (by decide)
     (by decide)⟩

/-- Claim C9: the claim (and the code's own comment "Slightly expand the
rectangle") wants each section rectangle to be the union of its members'
boxes expanded by 1 unit on each side. The code instead adds `(1,1,1,1)` to
all four coordinates — a pure translation — once per non-first member, only
for non-final sections, and applies nothing to the final section: on the
two-section page `[C9h1, C9a, C9h2]` the drawn rectangles are `(1,1,11,31)`
(shifted union, not containing the members' left/top edges) and
`(0,40,10,50)` (unexpanded), not the expanded unions `(-1,-1,11,31)` and
`(-1,39,11,51)`. -/
theorem C9_section_rect_shifted_not_expanded :
    drawSectionRects ["skills", "education"] [C9h1, C9a, C9h2] =
      [⟨1, 1, 11, 31⟩, ⟨0, 40, 10, 50⟩] ∧
    rUnion (bboxOf C9h1) (bboxOf C9a) = ⟨0, 0, 10, 30⟩ ∧
    (⟨1, 1, 11, 31⟩ : Rect) ≠ ⟨0 - 1, 0 - 1, 10 + 1, 30 + 1⟩ ∧
    ¬(1 ≤ (bboxOf C9h1).x0) ∧
    (⟨0, 40, 10, 50⟩ : Rect) ≠ ⟨0 - 1, 40 - 1, 10 + 1, 50 + 1⟩ := by
  refine ⟨by decide, by decide, by decide, by decide, by decide⟩

/-- Claim C10 (counterexample): header extraction is NOT first-page-only.
On the two-page document `[C10p1, C10p2]` the extractor consumes both
pages' lines and reports body size 14; on the first page alone it reports
body size 10. -/
theorem C10_extract_uses_all_pages :
    extractPages 5 [C10p1, C10p2] = some ⟨[], 14, 0⟩ ∧
    extractPages 5 [C10p1] = some ⟨[], 10, 0⟩ ∧
    extractPages 5 [C10p1, C10p2] ≠ extractPages 5 [C10p1] := by
  refine ⟨by decide, by decide, by decide⟩

/-- Claim C10 (amended): the layout analysis (`generate_layout_debug_pdf`)
depends only on the first page's blocks; the header extractor, contrary to
the original claim, aggregates the lines of every page. -/
theorem C10_layout_first_page_only (headings : List String) (bs avgHdrH pageWidth : ℚ)
    (p : List Block) (rest : List (List Block)) :
    layoutFirstPage headings bs avgHdrH pageWidth (p :: rest) =
      layoutFirstPage headings bs avgHdrH pageWidth [p] := rfl

end ALA
